import Mathlib

/- Verification of filify.py: a file organizer that moves files into
   category folders by extension and records every move in a plain-text
   log ("filify.log"), with two undo strategies (by count, by commit id).

   Strings are modelled as lists of characters.  The Python string
   operations the program uses (split, strip, lower, substring
   containment) are reimplemented below with Python's semantics, since
   the program's parsing behaviour depends on them exactly.  The
   filesystem is modelled as the list of existing file paths, and
   shutil.move as the transfer of one path.  Commit ids and timestamps
   are produced by the environment (uuid4, datetime.now) and are passed
   in as parameters. -/

abbrev Str := List Char

/-- Python substring containment, the test written sub in s. -/
def containsSub : Str → Str → Bool
  | [], sub => sub.isEmpty
  | c :: rest, sub => sub.isPrefixOf (c :: rest) || containsSub rest sub

/-- Worker for pySplit: scans left to right, cutting at each leftmost
occurrence of the separator.  The fuel argument is the length of the
scanned string, which bounds the recursion. -/
def splitGo (sep : Str) : Nat → Str → Str → List Str
  | _, [], acc => [acc.reverse]
  | 0, rem, acc => [acc.reverse ++ rem]
  | fuel+1, c :: rest, acc =>
    if sep.isPrefixOf (c :: rest) then
      acc.reverse :: splitGo sep fuel (List.drop sep.length (c :: rest)) []
    else
      splitGo sep fuel rest (c :: acc)

/-- Python s.split(sep) for a non-empty separator. -/
def pySplit (s sep : Str) : List Str := splitGo sep s.length s []

/-- Python s.lower(), on ASCII letters. -/
def pyLower (s : Str) : Str := s.map Char.toLower

/-- Python s.strip(): drop leading and trailing whitespace. -/
def pyStrip (s : Str) : Str :=
  ((s.dropWhile Char.isWhitespace).reverse.dropWhile Char.isWhitespace).reverse

/-- os.path.join for a relative second component. -/
def pathJoin (a b : Str) : Str := a ++ "/".data ++ b

/-- The filesystem: the list of currently existing file paths. -/
abbrev FS := List Str

/-- shutil.move src dst: dst comes to exist and src ceases to. -/
def fsMove (fs : FS) (src dst : Str) : FS := dst :: fs.erase src

/-- The log line written by log_move (filify.py:30), trailing newline
included, as readlines later returns it. -/
def formatLogLine (timestamp cid original new : Str) : Str :=
  timestamp ++ " | ".data ++ cid ++ " | ".data ++ original ++ " -> ".data ++ new ++ "\n".data

/-- log_move (filify.py:25): append one formatted line to the log. -/
def log_move (timestamp cid : Str) (log : List Str) (original new : Str) : List Str :=
  log ++ [formatLogLine timestamp cid original new]

/-- line.strip().split(" | ") unpacked into exactly three fields; none
models the ValueError the unpacking raises otherwise. -/
def splitLogLine (line : Str) : Option (Str × Str × Str) :=
  match pySplit (pyStrip line) " | ".data with
  | [f1, f2, f3] => some (f1, f2, f3)
  | _ => none

/-- move_entry.split(" -> ") unpacked into exactly two fields. -/
def splitMoveEntry (entry : Str) : Option (Str × Str) :=
  match pySplit entry " -> ".data with
  | [a, b] => some (a, b)
  | _ => none

/-- The configuration read from config.json (filify.py:38-42). -/
structure Config where
  directory : Str
  group_extensions : List (Str × List Str)
  unsorted_folder : Str

/-- First-match scan over the configured categories, as the inner loop
of categorize_files performs it (filify.py:96-106). -/
def findCategory (groups : List (Str × List Str)) (ext : Str) : Option Str :=
  match groups with
  | [] => none
  | (cat, exts) :: rest => if ext ∈ exts then some cat else findCategory rest ext

/-- file.split(".")[-1].lower(), the extension used for matching
(filify.py:93). -/
def fileExtension (file : Str) : Str := pyLower ((pySplit file ".".data).getLastD [])

/-- One primitive side effect of the categorization pass. -/
inductive FsAction where
  | fsMoveAct (src dst : Str)
  | logAppendAct (src dst : Str)
  | printAct (file displayName : Str)
  deriving DecidableEq

def FsAction.isMove : FsAction → Bool
  | .fsMoveAct _ _ => true
  | _ => false

/-- The sequence of side effects categorize_files performs for one file
(filify.py:83-112): move, then log append, then print, with the
fallback folder path hard-coded to "Unsorted" and only the printed
display text taken from the unsorted_folder setting. -/
def categorizeFileTrace (cfg : Config) (file : Str) : List FsAction :=
  let file_path := pathJoin cfg.directory file
  let unsorted_folder := pathJoin cfg.directory "Unsorted".data
  if !containsSub file ".".data then
    let new_path := pathJoin unsorted_folder file
    [.fsMoveAct file_path new_path, .logAppendAct file_path new_path,
     .printAct file cfg.unsorted_folder]
  else
    match findCategory cfg.group_extensions (fileExtension file) with
    | some category =>
      let new_path := pathJoin (pathJoin cfg.directory category) file
      [.fsMoveAct file_path new_path, .logAppendAct file_path new_path,
       .printAct file category]
    | none =>
      let new_path := pathJoin unsorted_folder file
      [.fsMoveAct file_path new_path, .logAppendAct file_path new_path,
       .printAct file cfg.unsorted_folder]

/-- categorize_files over the whole directory listing: the per-file
traces in listing order. -/
def categorize_files (cfg : Config) (files : List Str) : List FsAction :=
  (files.map (categorizeFileTrace cfg)).flatten

/-- Outcome of undo_by_commit_id: the branch that was taken. -/
inductive UndoByIdOutcome where
  | restoredOk (original new : Str)
  | missingNew (new : Str)
  | parseError
  | notFound
  deriving DecidableEq

def UndoByIdOutcome.isRestored : UndoByIdOutcome → Bool
  | .restoredOk _ _ => true
  | _ => false

/-- The scan of undo_by_commit_id (filify.py:134-151) over the reversed
log: find the first line containing the id as a substring; on a parsed
match with an existing new path, move it back and drop that line; on a
missing path or a parse failure, return with every line kept; keep
scanning past lines that do not contain the id. -/
def undoByIdGo (cid : Str) (fs : FS) : List Str → FS × List Str × UndoByIdOutcome
  | [] => (fs, [], .notFound)
  | line :: rest =>
    if containsSub line cid then
      match splitLogLine line with
      | some (_, _, entry) =>
        match splitMoveEntry entry with
        | some (original, new) =>
          if new ∈ fs then (fsMove fs new original, rest, .restoredOk original new)
          else (fs, line :: rest, .missingNew new)
        | none => (fs, line :: rest, .parseError)
      | none => (fs, line :: rest, .parseError)
    else
      let r := undoByIdGo cid fs rest
      (r.1, line :: r.2.1, r.2.2)

/-- undo_by_commit_id (filify.py:125-157) on a present log file: the
resulting filesystem, the log file contents after the call, and the
outcome.  The log is rewritten only in the restoredOk branch; in every
other branch the function returns before the rewrite. -/
def undo_by_commit_id (cid : Str) (fs : FS) (log : List Str) :
    FS × List Str × UndoByIdOutcome :=
  let r := undoByIdGo cid fs log.reverse
  (r.1, r.2.1.reverse, r.2.2)

/-- One line of per-entry output of undo_last_moves. -/
inductive UndoReport where
  | restored (new original cid : Str)
  | missing (new cid : Str)
  | errorReport (cid : Str)
  deriving DecidableEq

/-- Python lines[-n:].  A slice lines[-0:] is lines[0:], the whole
list. -/
def pyTakeLast (l : List Str) (n : Nat) : List Str :=
  if n = 0 then l else l.drop (l.length - n)

/-- Python lines[:-n].  A slice lines[:-0] is lines[:0], the empty
list. -/
def pyDropLast (l : List Str) (n : Nat) : List Str :=
  if n = 0 then [] else l.take (l.length - n)

/-- The loop of undo_last_moves (filify.py:176-186).  lastCid is the
value the local variable commit_id holds from an earlier iteration, if
any: the except handler at filify.py:186 reads commit_id, so when a
line fails to unpack into three fields before commit_id was ever
assigned, the handler itself raises UnboundLocalError, modelled as
none.  When the three-field unpacking succeeds, commit_id is assigned
even if the subsequent arrow split fails. -/
def undoLastGo (fs : FS) (succ fail : List UndoReport) (lastCid : Option Str) :
    List Str → Option (FS × List UndoReport × List UndoReport)
  | [] => some (fs, succ, fail)
  | move :: rest =>
    match splitLogLine move with
    | some (cid, _, entry) =>
      match splitMoveEntry entry with
      | some (original, new) =>
        if new ∈ fs then
          undoLastGo (fsMove fs new original)
            (succ ++ [.restored new original cid]) fail (some cid) rest
        else
          undoLastGo fs succ (fail ++ [.missing new cid]) (some cid) rest
      | none =>
        undoLastGo fs succ (fail ++ [.errorReport cid]) (some cid) rest
    | none =>
      match lastCid with
      | some cid => undoLastGo fs succ (fail ++ [.errorReport cid]) (some cid) rest
      | none => none

/-- undo_last_moves (filify.py:160-200) on a present log file: none
models the uncaught exception escaping the function (the process
crashes and the log file is not rewritten); otherwise the resulting
filesystem, the rewritten log (the last n lines removed
unconditionally), and the success and failure reports. -/
def undo_last_moves (n : Nat) (fs : FS) (log : List Str) :
    Option (FS × List Str × List UndoReport × List UndoReport) :=
  if log.isEmpty then some (fs, log, [], [])
  else
    match undoLastGo fs [] [] none (pyTakeLast log n).reverse with
    | some (fs2, succ, fail) => some (fs2, pyDropLast log n, succ, fail)
    | none => none

/-- Specification-side description of the batch undo pass, following
the spec's words: the given records are processed most recent first; an
entry whose new path still exists is moved back and a success is
recorded, otherwise a failure is recorded, and the batch continues
either way. -/
def specBatchUndo (fs : FS) : List (Str × Str × Str) → FS × List UndoReport × List UndoReport
  | [] => (fs, [], [])
  | (cid, original, new) :: rest =>
    if new ∈ fs then
      let r := specBatchUndo (fsMove fs new original) rest
      (r.1, .restored new original cid :: r.2.1, r.2.2)
    else
      let r := specBatchUndo fs rest
      (r.1, r.2.1, .missing new cid :: r.2.2)

/-- A log line parsed the way undo_last_moves parses it: the first
field (which is in fact the timestamp, though the code binds it to the
name commit_id), then the original and new paths. -/
def parseRecord (line : Str) : Option (Str × Str × Str) :=
  match splitLogLine line with
  | some (f1, _, entry) =>
    match splitMoveEntry entry with
    | some (original, new) => some (f1, original, new)
    | none => none
  | none => none

/-- All lines parsed, or none if any line is malformed. -/
def parseRecords : List Str → Option (List (Str × Str × Str))
  | [] => some []
  | l :: rest =>
    match parseRecord l, parseRecords rest with
    | some r, some rs => some (r :: rs)
    | _, _ => none

/-- What list_files_and_folders (filify.py:45-65) observes about the
configured directory. -/
inductive DirListing where
  | present (files folders : List Str)
  | missingDir
  | permissionDenied
  | otherError
  deriving DecidableEq

/-- What a run of the program amounts to after argument parsing. -/
inductive MainOutcome where
  | exitFailure
  | ranUndoLast (n : Int)
  | ranUndoCommit (cid : Str)
  | ranCategorize (files : List Str)
  deriving DecidableEq

/-- The main block (filify.py:203-215): list_files_and_folders runs
first and any of its error branches exits with status 1; only then does
the dispatch on the arguments happen.  args.undo_commit is tested for
truthiness, so an empty string falls through to categorization. -/
def mainDispatch (listing : DirListing) (undo : Int) (undo_commit : Option Str) :
    MainOutcome :=
  match listing with
  | .present files _ =>
    if 0 < undo then .ranUndoLast undo
    else
      match undo_commit with
      | some cid => if cid.isEmpty then .ranCategorize files else .ranUndoCommit cid
      | none => .ranCategorize files
  | .missingDir => .exitFailure
  | .permissionDenied => .exitFailure
  | .otherError => .exitFailure

/- Theorems ----------------------------------------------------------- -/

/-- The first-match scan returns the first declared category whose
extension list contains the extension. -/
lemma findCategory_append_first (pre post : List (Str × List Str)) (cat : Str)
    (exts : List Str) (ext : Str) (hmem : ext ∈ exts)
    (hpre : ∀ p ∈ pre, ext ∉ p.2) :
    findCategory (pre ++ (cat, exts) :: post) ext = some cat := by
  induction pre with
  | nil => simp [findCategory, hmem]
  | cons p ps ih =>
    obtain ⟨c, es⟩ := p
    have h1 : ext ∉ es := by simpa using hpre (c, es) (by simp)
    simp only [List.cons_append, findCategory, if_neg h1]
    exact ih (fun q hq => hpre q (by simp [hq]))

/-- C5: the claim that extension matching is case-insensitive fails on
the code: only the file's extension is lowercased, so a configured
extension string with an uppercase letter never matches.  With category
Images declared for extension "JPG", the file a.jpg (extension "jpg",
differing from "JPG" only in letter case) is moved to Unsorted, not to
Images. -/
theorem spec_c5_counterexample :
    (pySplit "a.jpg".data ".".data).getLastD [] = "jpg".data ∧
    pyLower "jpg".data = pyLower "JPG".data ∧
    "jpg".data ≠ "JPG".data ∧
    categorizeFileTrace (Config.mk "d".data [("Images".data, ["JPG".data])] "Unsorted".data)
        "a.jpg".data =
      [FsAction.fsMoveAct "d/a.jpg".data "d/Unsorted/a.jpg".data,
       FsAction.logAppendAct "d/a.jpg".data "d/Unsorted/a.jpg".data,
       FsAction.printAct "a.jpg".data "Unsorted".data] ∧
    FsAction.fsMoveAct "d/a.jpg".data "d/Images/a.jpg".data ∉
      categorizeFileTrace (Config.mk "d".data [("Images".data, ["JPG".data])] "Unsorted".data)
        "a.jpg".data := by
  refine ⟨by decide, by decide, by decide, by decide, by decide⟩

/-- C5 (amended): extension matching lowercases only the file's
extension and compares it to the configured strings by exact equality:
whenever the first-match scan over the configured categories finds the
lowercased extension, the file is moved into that category's folder.
Case differences in the file's name are therefore tolerated, but
configured extension strings containing uppercase letters never
match. -/
theorem spec_c5_amended (cfg : Config) (file cat : Str)
    (hdot : containsSub file ".".data = true)
    (hfind : findCategory cfg.group_extensions (fileExtension file) = some cat) :
    categorizeFileTrace cfg file =
      [FsAction.fsMoveAct (pathJoin cfg.directory file)
         (pathJoin (pathJoin cfg.directory cat) file),
       FsAction.logAppendAct (pathJoin cfg.directory file)
         (pathJoin (pathJoin cfg.directory cat) file),
       FsAction.printAct file cat] := by
  simp [categorizeFileTrace, hdot, hfind]

/-- Witness for C5 (amended): the file a.JPG matches the category
Images declared for the lowercase extension "jpg". -/
theorem spec_c5_witness :
    containsSub "a.JPG".data ".".data = true ∧
    findCategory [("Images".data, ["jpg".data])]
      (fileExtension "a.JPG".data) = some "Images".data ∧
    categorizeFileTrace (Config.mk "d".data [("Images".data, ["jpg".data])] "Unsorted".data)
        "a.JPG".data =
      [FsAction.fsMoveAct (pathJoin "d".data "a.JPG".data)
         (pathJoin (pathJoin "d".data "Images".data) "a.JPG".data),
       FsAction.logAppendAct (pathJoin "d".data "a.JPG".data)
         (pathJoin (pathJoin "d".data "Images".data) "a.JPG".data),
       FsAction.printAct "a.JPG".data "Images".data] :=
  ⟨by decide, by decide,
   spec_c5_amended (Config.mk "d".data [("Images".data, ["jpg".data])] "Unsorted".data)
     "a.JPG".data "Images".data (by decide) (by decide)⟩

/-- C6: when the file's (lowercased) extension is listed in a category
and possibly in later-declared categories as well, the file is moved
into the first-declared category whose list contains it, and the
categorization of that file performs exactly one filesystem move. -/
theorem spec_c6 (cfg : Config) (file : Str) (pre post : List (Str × List Str))
    (cat : Str) (exts : List Str)
    (hdot : containsSub file ".".data = true)
    (hcfg : cfg.group_extensions = pre ++ (cat, exts) :: post)
    (hmem : fileExtension file ∈ exts)
    (hpre : ∀ p ∈ pre, fileExtension file ∉ p.2) :
    (categorizeFileTrace cfg file).filter FsAction.isMove =
      [FsAction.fsMoveAct (pathJoin cfg.directory file)
        (pathJoin (pathJoin cfg.directory cat) file)] := by
  have hfind : findCategory cfg.group_extensions (fileExtension file) = some cat := by
    rw [hcfg]
    exact findCategory_append_first pre post cat exts (fileExtension file) hmem hpre
  simp [categorizeFileTrace, hdot, hfind, FsAction.isMove]

/-- Witness for C6: the extension "jpg" is declared both for Images and
for the later category Backup, after the non-matching category Docs;
a.jpg goes to Images with one move. -/
theorem spec_c6_witness :
    containsSub "a.jpg".data ".".data = true ∧
    fileExtension "a.jpg".data ∈ ["jpg".data] ∧
    (categorizeFileTrace
        (Config.mk "d".data
          [("Docs".data, ["txt".data]), ("Images".data, ["jpg".data]),
           ("Backup".data, ["jpg".data])] "Unsorted".data)
        "a.jpg".data).filter FsAction.isMove =
      [FsAction.fsMoveAct (pathJoin "d".data "a.jpg".data)
        (pathJoin (pathJoin "d".data "Images".data) "a.jpg".data)] :=
  ⟨by decide, by decide,
   spec_c6
     (Config.mk "d".data
       [("Docs".data, ["txt".data]), ("Images".data, ["jpg".data]),
        ("Backup".data, ["jpg".data])] "Unsorted".data)
     "a.jpg".data [("Docs".data, ["txt".data])]
     [("Backup".data, ["jpg".data])] "Images".data ["jpg".data]
     (by decide) (by decide) (by decide) (by decide)⟩

/-- C7: a file with no dot in its name, or whose extension matches no
configured category, is moved into a folder whose filesystem name is
the hard-coded "Unsorted", while the printed display text is the
configured unsorted_folder value. -/
theorem spec_c7 (cfg : Config) (file : Str)
    (h : containsSub file ".".data = false ∨
      findCategory cfg.group_extensions (fileExtension file) = none) :
    categorizeFileTrace cfg file =
      [FsAction.fsMoveAct (pathJoin cfg.directory file)
         (pathJoin (pathJoin cfg.directory "Unsorted".data) file),
       FsAction.logAppendAct (pathJoin cfg.directory file)
         (pathJoin (pathJoin cfg.directory "Unsorted".data) file),
       FsAction.printAct file cfg.unsorted_folder] := by
  rcases h with hnd | hnone
  · simp [categorizeFileTrace, hnd]
  · cases hc : containsSub file ".".data
    · simp [categorizeFileTrace, hc]
    · simp [categorizeFileTrace, hc, hnone]

/-- Witness for C7: a configuration whose unsorted_folder setting is
"Misc" still moves the extensionless file "notes" into d/Unsorted, and
only prints "Misc". -/
theorem spec_c7_witness :
    containsSub "notes".data ".".data = false ∧
    categorizeFileTrace (Config.mk "d".data [("Images".data, ["jpg".data])] "Misc".data)
        "notes".data =
      [FsAction.fsMoveAct (pathJoin "d".data "notes".data)
         (pathJoin (pathJoin "d".data "Unsorted".data) "notes".data),
       FsAction.logAppendAct (pathJoin "d".data "notes".data)
         (pathJoin (pathJoin "d".data "Unsorted".data) "notes".data),
       FsAction.printAct "notes".data "Misc".data] :=
  ⟨by decide,
   spec_c7 (Config.mk "d".data [("Images".data, ["jpg".data])] "Misc".data)
     "notes".data (Or.inl (by decide))⟩

/-- C4: the claim that both undo operations tolerate malformed log
lines is the intent, but undo_last_moves has a slip: its except handler
(filify.py:186) reads the loop-local variable commit_id, which is
unbound when the very first processed line fails to unpack into three
fields, so the handler raises UnboundLocalError and the process crashes
(modelled as none) without rewriting the log.  undo_by_commit_id, whose
handler only reads its parameter, does tolerate the same malformed
line: it reports a parse error and leaves the log unchanged. -/
theorem spec_c4_crash :
    undo_last_moves 1 [] ["garbage\n".data] = none ∧
    (undo_by_commit_id "abc".data [] ["garbage abc\n".data]).2.2 =
      UndoByIdOutcome.parseError ∧
    (undo_by_commit_id "abc".data [] ["garbage abc\n".data]).2.1 =
      ["garbage abc\n".data] :=
  ⟨by decide, by decide, by decide⟩

/-- C10: when the configured directory is missing or unreadable, the
process exits with status 1 even in undo mode, because the directory
listing runs before the undo dispatch. -/
theorem spec_c10 (listing : DirListing) (undo : Int) (uc : Option Str)
    (hmode : 0 < undo ∨ ∃ cid, uc = some cid ∧ cid ≠ [])
    (hbad : listing = DirListing.missingDir ∨ listing = DirListing.permissionDenied) :
    mainDispatch listing undo uc = MainOutcome.exitFailure := by
  rcases hbad with h | h <;> subst h <;> rfl

/-- Witness for C10: the invocation --undo 1 on a missing directory
exits with failure. -/
theorem spec_c10_witness :
    (0 < (1 : Int)) ∧
    mainDispatch DirListing.missingDir 1 none = MainOutcome.exitFailure :=
  ⟨by decide, spec_c10 DirListing.missingDir 1 none (Or.inl (by decide)) (Or.inl rfl)⟩

/-- When the scan does not reach the restore branch, it hands back the
scanned lines and the filesystem untouched. -/
lemma undoByIdGo_not_restored (cid : Str) (fs : FS) (rl : List Str)
    (h : (undoByIdGo cid fs rl).2.2.isRestored = false) :
    (undoByIdGo cid fs rl).2.1 = rl ∧ (undoByIdGo cid fs rl).1 = fs := by
  induction rl with
  | nil => simp [undoByIdGo]
  | cons line rest ih =>
    by_cases hc : containsSub line cid = true
    · rcases hs : splitLogLine line with _ | ⟨⟨f1, f2, entry⟩⟩
      · simp [undoByIdGo, hc, hs]
      · rcases hm : splitMoveEntry entry with _ | ⟨⟨original, new⟩⟩
        · simp [undoByIdGo, hc, hs, hm]
        · by_cases hn : new ∈ fs
          · exfalso
            rw [show (undoByIdGo cid fs (line :: rest)).2.2 =
                UndoByIdOutcome.restoredOk original new by
              simp [undoByIdGo, hc, hs, hm, hn]] at h
            simp [UndoByIdOutcome.isRestored] at h
          · simp [undoByIdGo, hc, hs, hm, hn]
    · have hc' : containsSub line cid = false := by
        cases hcb : containsSub line cid
        · rfl
        · exact absurd hcb hc
      have h' : (undoByIdGo cid fs rest).2.2.isRestored = false := by
        rw [show (undoByIdGo cid fs (line :: rest)).2.2 =
            (undoByIdGo cid fs rest).2.2 by simp [undoByIdGo, hc']] at h
        exact h
      have := ih h'
      constructor
      · rw [show (undoByIdGo cid fs (line :: rest)).2.1 =
            line :: (undoByIdGo cid fs rest).2.1 by simp [undoByIdGo, hc']]
        rw [this.1]
      · rw [show (undoByIdGo cid fs (line :: rest)).1 =
            (undoByIdGo cid fs rest).1 by simp [undoByIdGo, hc']]
        exact this.2

/-- C3: undo_by_commit_id mutates the log only when a restore has
succeeded: whenever the outcome is not a successful restore (the
matched record's new path is missing, the matched line fails to parse,
or no line contains the identifier), the log file contents after the
call are identical to before, and the filesystem is untouched too. -/
theorem spec_c3 (cid : Str) (fs : FS) (log : List Str)
    (h : (undo_by_commit_id cid fs log).2.2.isRestored = false) :
    (undo_by_commit_id cid fs log).2.1 = log ∧
    (undo_by_commit_id cid fs log).1 = fs := by
  have h' : (undoByIdGo cid fs log.reverse).2.2.isRestored = false := h
  have hg := undoByIdGo_not_restored cid fs log.reverse h'
  constructor
  · show (undoByIdGo cid fs log.reverse).2.1.reverse = log
    rw [hg.1, List.reverse_reverse]
  · exact hg.2

/-- Witness for C3: an identifier absent from a one-line log reports
not-found and leaves the log and the filesystem as they were. -/
theorem spec_c3_witness :
    (undo_by_commit_id "zzz".data ["d/Images/a.jpg".data]
        ["t1 | abcd1234 | d/a.jpg -> d/Images/a.jpg\n".data]).2.2.isRestored = false ∧
    (undo_by_commit_id "zzz".data ["d/Images/a.jpg".data]
        ["t1 | abcd1234 | d/a.jpg -> d/Images/a.jpg\n".data]).2.1 =
      ["t1 | abcd1234 | d/a.jpg -> d/Images/a.jpg\n".data] ∧
    (undo_by_commit_id "zzz".data ["d/Images/a.jpg".data]
        ["t1 | abcd1234 | d/a.jpg -> d/Images/a.jpg\n".data]).1 =
      ["d/Images/a.jpg".data] :=
  ⟨by decide,
   (spec_c3 "zzz".data ["d/Images/a.jpg".data]
     ["t1 | abcd1234 | d/a.jpg -> d/Images/a.jpg\n".data] (by decide)).1,
   (spec_c3 "zzz".data ["d/Images/a.jpg".data]
     ["t1 | abcd1234 | d/a.jpg -> d/Images/a.jpg\n".data] (by decide)).2⟩

/-- C2: a move followed by undo_by_commit_id with that move's commit id
restores the file to its original path and removes exactly the appended
line from the log, leaving every earlier line unchanged.  The
hypotheses record that the formatted line contains the id and parses
back into its fields, which holds for the ids and paths the program
produces. -/
theorem spec_c2 (fs : FS) (log : List Str) (ts cid orig new : Str)
    (hmatch : containsSub (formatLogLine ts cid orig new) cid = true)
    (hsplit : splitLogLine (formatLogLine ts cid orig new) =
      some (ts, cid, orig ++ " -> ".data ++ new))
    (hentry : splitMoveEntry (orig ++ " -> ".data ++ new) = some (orig, new)) :
    undo_by_commit_id cid (fsMove fs orig new) (log_move ts cid log orig new) =
      (orig :: fs.erase orig, log, UndoByIdOutcome.restoredOk orig new) := by
  have hrev : (log_move ts cid log orig new).reverse =
      formatLogLine ts cid orig new :: log.reverse := by
    simp [log_move]
  show (let r := undoByIdGo cid (fsMove fs orig new) (log_move ts cid log orig new).reverse
    (r.1, r.2.1.reverse, r.2.2)) = _
  rw [hrev]
  have hmem : new ∈ fsMove fs orig new := by simp [fsMove]
  have hgo : undoByIdGo cid (fsMove fs orig new)
      (formatLogLine ts cid orig new :: log.reverse) =
      (fsMove (fsMove fs orig new) new orig, log.reverse,
        UndoByIdOutcome.restoredOk orig new) := by
    set entry := orig ++ " -> ".data ++ new with hent
    simp [undoByIdGo, hmatch, hsplit, hentry, hmem]
  rw [hgo]
  simp [fsMove, List.erase_cons_head]

/-- Witness for C2: moving d/a.jpg to d/Images/a.jpg and undoing by the
commit id abcd1234 puts the file back and erases the one log line. -/
theorem spec_c2_witness :
    containsSub (formatLogLine "2024-01-01 00:00:00".data "abcd1234".data
      "d/a.jpg".data "d/Images/a.jpg".data) "abcd1234".data = true ∧
    undo_by_commit_id "abcd1234".data
        (fsMove ["d/a.jpg".data, "d/b.txt".data] "d/a.jpg".data "d/Images/a.jpg".data)
        (log_move "2024-01-01 00:00:00".data "abcd1234".data
          ["t0 | 11112222 | d/x -> d/y\n".data] "d/a.jpg".data "d/Images/a.jpg".data) =
      ("d/a.jpg".data :: List.erase ["d/a.jpg".data, "d/b.txt".data] "d/a.jpg".data,
        ["t0 | 11112222 | d/x -> d/y\n".data],
        UndoByIdOutcome.restoredOk "d/a.jpg".data "d/Images/a.jpg".data) :=
  ⟨by decide,
   spec_c2 ["d/a.jpg".data, "d/b.txt".data] ["t0 | 11112222 | d/x -> d/y\n".data]
     "2024-01-01 00:00:00".data "abcd1234".data "d/a.jpg".data "d/Images/a.jpg".data
     (by decide) (by decide) (by decide)⟩

/-- When every processed line parses, the loop of undo_last_moves never
reaches the unbound commit_id and computes exactly the spec-side batch
pass, with reports appended to the accumulators. -/
lemma undoLastGo_spec (lines : List Str) : ∀ (fs : FS) (succ fail : List UndoReport)
    (lastCid : Option Str) (recs : List (Str × Str × Str)),
    parseRecords lines = some recs →
    undoLastGo fs succ fail lastCid lines =
      some ((specBatchUndo fs recs).1, succ ++ (specBatchUndo fs recs).2.1,
        fail ++ (specBatchUndo fs recs).2.2) := by
  induction lines with
  | nil =>
    intro fs succ fail lastCid recs hp
    simp only [parseRecords, Option.some.injEq] at hp
    subst hp
    simp [undoLastGo, specBatchUndo]
  | cons l rest ih =>
    intro fs succ fail lastCid recs hp
    simp only [parseRecords] at hp
    rcases h1 : parseRecord l with _ | ⟨⟨cid, orig, new⟩⟩ <;> rw [h1] at hp
    · simp at hp
    rcases h2 : parseRecords rest with _ | rs <;> rw [h2] at hp
    · simp at hp
    simp only [Option.some.injEq] at hp
    subst hp
    simp only [parseRecord] at h1
    rcases hs : splitLogLine l with _ | ⟨⟨f1, f2, entry⟩⟩
    · rw [hs] at h1
      simp at h1
    rw [hs] at h1
    dsimp only at h1
    rcases hm : splitMoveEntry entry with _ | ⟨⟨o, n⟩⟩
    · rw [hm] at h1
      simp at h1
    rw [hm] at h1
    dsimp only at h1
    simp only [Option.some.injEq, Prod.mk.injEq] at h1
    obtain ⟨hf1, ho, hn⟩ := h1
    subst hf1; subst ho; subst hn
    by_cases hmem : n ∈ fs
    · rw [show undoLastGo fs succ fail lastCid (l :: rest) =
          undoLastGo (fsMove fs n o)
            (succ ++ [UndoReport.restored n o f1]) fail (some f1) rest by
        simp [undoLastGo, hs, hm, hmem]]
      rw [ih (fsMove fs n o) (succ ++ [UndoReport.restored n o f1])
        fail (some f1) rs h2]
      simp [specBatchUndo, hmem, List.append_assoc]
    · rw [show undoLastGo fs succ fail lastCid (l :: rest) =
          undoLastGo fs succ (fail ++ [UndoReport.missing n f1]) (some f1) rest by
        simp [undoLastGo, hs, hm, hmem]]
      rw [ih fs succ (fail ++ [UndoReport.missing n f1]) (some f1) rs h2]
      simp [specBatchUndo, hmem, List.append_assoc]

/-- C1: on a log of at least n well-formed lines with n at least one,
undo_last_moves processes the last n lines most recent first, exactly
as the spec-side batch pass describes (restore an entry whose new path
exists, record a failure otherwise, never abort), and rewrites the log
to its first length - n lines — the last n lines are removed no matter
how many restores succeeded. -/
theorem spec_c1 (n : Nat) (fs : FS) (log : List Str) (recs : List (Str × Str × Str))
    (h1 : 1 ≤ n) (h2 : n ≤ log.length)
    (hp : parseRecords (pyTakeLast log n).reverse = some recs) :
    undo_last_moves n fs log =
      some ((specBatchUndo fs recs).1, log.take (log.length - n),
        (specBatchUndo fs recs).2.1, (specBatchUndo fs recs).2.2) := by
  have hne : log.isEmpty = false := by
    cases log with
    | nil => simp at h2; omega
    | cons a l => rfl
  have hn0 : n ≠ 0 := by omega
  unfold undo_last_moves
  rw [hne]
  rw [undoLastGo_spec (pyTakeLast log n).reverse fs [] [] none recs hp]
  simp [pyDropLast, hn0]

/-- Witness for C1, the spec's scenario: a three-line log for files A,
B, C; undo of the last 2 restores C then B and the log keeps only the
line for A. -/
theorem spec_c1_witness :
    1 ≤ 2 ∧
    2 ≤ (["t1 | c1 | oa -> na\n".data, "t2 | c2 | ob -> nb\n".data,
          "t3 | c3 | oc -> nc\n".data] : List Str).length ∧
    parseRecords (pyTakeLast ["t1 | c1 | oa -> na\n".data, "t2 | c2 | ob -> nb\n".data,
        "t3 | c3 | oc -> nc\n".data] 2).reverse =
      some [("t3".data, "oc".data, "nc".data), ("t2".data, "ob".data, "nb".data)] ∧
    undo_last_moves 2 ["nb".data, "nc".data]
        ["t1 | c1 | oa -> na\n".data, "t2 | c2 | ob -> nb\n".data,
         "t3 | c3 | oc -> nc\n".data] =
      some ((specBatchUndo ["nb".data, "nc".data]
          [("t3".data, "oc".data, "nc".data), ("t2".data, "ob".data, "nb".data)]).1,
        (["t1 | c1 | oa -> na\n".data, "t2 | c2 | ob -> nb\n".data,
          "t3 | c3 | oc -> nc\n".data] : List Str).take (3 - 2),
        (specBatchUndo ["nb".data, "nc".data]
          [("t3".data, "oc".data, "nc".data), ("t2".data, "ob".data, "nb".data)]).2.1,
        (specBatchUndo ["nb".data, "nc".data]
          [("t3".data, "oc".data, "nc".data), ("t2".data, "ob".data, "nb".data)]).2.2) :=
  ⟨by decide, by decide, by decide,
   spec_c1 2 ["nb".data, "nc".data]
     ["t1 | c1 | oa -> na\n".data, "t2 | c2 | ob -> nb\n".data,
      "t3 | c3 | oc -> nc\n".data]
     [("t3".data, "oc".data, "nc".data), ("t2".data, "ob".data, "nb".data)]
     (by decide) (by decide) (by decide)⟩

/-- C9: asking to undo more moves than the log holds is defined, not a
crash: with n greater than the number of well-formed log lines, the
whole log is processed (clamped to the available entries) and the
rewritten log is empty. -/
theorem spec_c9 (n : Nat) (fs : FS) (log : List Str) (recs : List (Str × Str × Str))
    (hlen : log.length < n)
    (hp : parseRecords log.reverse = some recs) :
    undo_last_moves n fs log =
      some ((specBatchUndo fs recs).1, [],
        (specBatchUndo fs recs).2.1, (specBatchUndo fs recs).2.2) := by
  have hn0 : n ≠ 0 := by omega
  cases hlog : log with
  | nil =>
    subst hlog
    simp only [parseRecords, List.reverse_nil, Option.some.injEq] at hp
    subst hp
    simp [undo_last_moves, specBatchUndo]
  | cons a l =>
    subst hlog
    have htake : pyTakeLast (a :: l) n = a :: l := by
      simp only [pyTakeLast, if_neg hn0]
      rw [show (a :: l).length - n = 0 by omega]
      rfl
    unfold undo_last_moves
    rw [show (a :: l).isEmpty = false from rfl, htake,
      undoLastGo_spec (a :: l).reverse fs [] [] none recs hp]
    have hdrop : pyDropLast (a :: l) n = [] := by
      simp only [pyDropLast, if_neg hn0]
      rw [show (a :: l).length - n = 0 by omega]
      rfl
    rw [hdrop]
    simp

/-- Witness for C9: undoing 5 moves against a one-line log restores the
one entry and leaves the log empty. -/
theorem spec_c9_witness :
    (["t1 | c1 | oa -> na\n".data] : List Str).length < 5 ∧
    parseRecords (["t1 | c1 | oa -> na\n".data] : List Str).reverse =
      some [("t1".data, "oa".data, "na".data)] ∧
    undo_last_moves 5 ["na".data] ["t1 | c1 | oa -> na\n".data] =
      some ((specBatchUndo ["na".data] [("t1".data, "oa".data, "na".data)]).1, [],
        (specBatchUndo ["na".data] [("t1".data, "oa".data, "na".data)]).2.1,
        (specBatchUndo ["na".data] [("t1".data, "oa".data, "na".data)]).2.2) :=
  ⟨by decide, by decide,
   spec_c9 5 ["na".data] ["t1 | c1 | oa -> na\n".data]
     [("t1".data, "oa".data, "na".data)] (by decide) (by decide)⟩

/-- A list splitting as p ++ t = l1 ++ l2 either puts all of p inside
l1 or lets p absorb l1 whole. -/
lemma append_eq_append_split {α : Type} (p t l1 l2 : List α) (h : p ++ t = l1 ++ l2) :
    (∃ u, p ++ u = l1) ∨ (∃ q, p = l1 ++ q ∧ q ++ t = l2) := by
  induction l1 generalizing p with
  | nil => exact Or.inr ⟨p, by simp, by simpa using h⟩
  | cons a l1 ih =>
    cases p with
    | nil => exact Or.inl ⟨a :: l1, by simp⟩
    | cons b p =>
      simp only [List.cons_append] at h
      injection h with hba hrest
      subst hba
      rcases ih p hrest with ⟨u, hu⟩ | ⟨q, hq1, hq2⟩
      · exact Or.inl ⟨u, by simp [hu]⟩
      · exact Or.inr ⟨q, by simp [hq1], hq2⟩

/-- Every per-file trace is a three-step block: the move, then the log
append for the same source and destination, then the print. -/
lemma categorizeFileTrace_shape (cfg : Config) (file : Str) :
    ∃ fp np disp, categorizeFileTrace cfg file =
      [FsAction.fsMoveAct fp np, FsAction.logAppendAct fp np,
       FsAction.printAct file disp] := by
  cases hc : containsSub file ".".data
  · exact ⟨pathJoin cfg.directory file,
      pathJoin (pathJoin cfg.directory "Unsorted".data) file, cfg.unsorted_folder,
      by simp [categorizeFileTrace, hc]⟩
  · cases hf : findCategory cfg.group_extensions (fileExtension file) with
    | none =>
      exact ⟨pathJoin cfg.directory file,
        pathJoin (pathJoin cfg.directory "Unsorted".data) file, cfg.unsorted_folder,
        by simp [categorizeFileTrace, hc, hf]⟩
    | some cat =>
      exact ⟨pathJoin cfg.directory file,
        pathJoin (pathJoin cfg.directory cat) file, cat,
        by simp [categorizeFileTrace, hc, hf]⟩

/-- Inside a single three-step block, a log append visible in a prefix
is preceded by its move in the same prefix. -/
lemma block_mem_move {fp np file disp : Str} {p t : List FsAction} {src dst : Str}
    (h : p ++ t = [FsAction.fsMoveAct fp np, FsAction.logAppendAct fp np,
      FsAction.printAct file disp])
    (hlog : FsAction.logAppendAct src dst ∈ p) :
    FsAction.fsMoveAct src dst ∈ p := by
  rcases p with _ | ⟨a, _ | ⟨b, _ | ⟨c, p⟩⟩⟩
  · simp at hlog
  · injection h with h1 h2
    subst h1
    simp at hlog
  · injection h with h1 h2
    injection h2 with h2 h3
    subst h1; subst h2
    rcases List.mem_cons.mp hlog with he | he
    · simp at he
    · simp only [List.mem_singleton] at he
      obtain ⟨hsrc, hdst⟩ : src = fp ∧ dst = np := by
        have := FsAction.logAppendAct.injEq .. ▸ he
        simpa using he
      subst hsrc; subst hdst
      simp
  · injection h with h1 h2
    injection h2 with h2 h3
    injection h3 with h3 h4
    have hnil : p = [] := by
      cases p
      · rfl
      · simp at h4
    subst hnil; subst h1; subst h2; subst h3
    rcases List.mem_cons.mp hlog with he | he
    · simp at he
    rcases List.mem_cons.mp he with he2 | he2
    · obtain ⟨hsrc, hdst⟩ : src = fp ∧ dst = np := by simpa using he2
      subst hsrc; subst hdst
      simp
    · simp at he2

/-- C8: the log append for a move happens only after the move itself:
in every prefix of the categorization trace (every possible abort
point), each logged (source, destination) pair is preceded by the
corresponding filesystem move, so an aborted run never leaves a log
entry for a move that did not happen. -/
theorem spec_c8 (cfg : Config) (files : List Str) (p t : List FsAction)
    (src dst : Str)
    (happ : p ++ t = categorize_files cfg files)
    (hlog : FsAction.logAppendAct src dst ∈ p) :
    FsAction.fsMoveAct src dst ∈ p := by
  induction files generalizing p t with
  | nil =>
    have hp : p = [] := by
      have := List.append_eq_nil.mp (happ.trans (by simp [categorize_files]))
      exact this.1
    subst hp
    simp at hlog
  | cons f fsl ih =>
    have hsplit : p ++ t = categorizeFileTrace cfg f ++ categorize_files cfg fsl := by
      simpa [categorize_files] using happ
    obtain ⟨fp, np, disp, hb⟩ := categorizeFileTrace_shape cfg f
    rcases append_eq_append_split p t _ _ hsplit with ⟨u, hu⟩ | ⟨q, hq1, hq2⟩
    · exact block_mem_move (hb ▸ hu) hlog
    · subst hq1
      rcases List.mem_append.mp hlog with hin | hin
      · rw [hb] at hin
        obtain ⟨hsrc, hdst⟩ : src = fp ∧ dst = np := by simpa using hin
        subst hsrc; subst hdst
        apply List.mem_append_left
        rw [hb]
        simp
      · exact List.mem_append_right _ (ih q t hq2 hin)

/-- Witness for C8: in the trace for the single file a.jpg, the prefix
that ends just after the log append contains the move. -/
theorem spec_c8_witness :
    [FsAction.fsMoveAct "d/a.jpg".data "d/Images/a.jpg".data,
     FsAction.logAppendAct "d/a.jpg".data "d/Images/a.jpg".data] ++
      [FsAction.printAct "a.jpg".data "Images".data] =
      categorize_files (Config.mk "d".data [("Images".data, ["jpg".data])] "Unsorted".data)
        ["a.jpg".data] ∧
    FsAction.logAppendAct "d/a.jpg".data "d/Images/a.jpg".data ∈
      [FsAction.fsMoveAct "d/a.jpg".data "d/Images/a.jpg".data,
       FsAction.logAppendAct "d/a.jpg".data "d/Images/a.jpg".data] ∧
    FsAction.fsMoveAct "d/a.jpg".data "d/Images/a.jpg".data ∈
      [FsAction.fsMoveAct "d/a.jpg".data "d/Images/a.jpg".data,
       FsAction.logAppendAct "d/a.jpg".data "d/Images/a.jpg".data] :=
  ⟨by decide, by decide,
   spec_c8 (Config.mk "d".data [("Images".data, ["jpg".data])] "Unsorted".data)
     ["a.jpg".data]
     [FsAction.fsMoveAct "d/a.jpg".data "d/Images/a.jpg".data,
      FsAction.logAppendAct "d/a.jpg".data "d/Images/a.jpg".data]
     [FsAction.printAct "a.jpg".data "Images".data]
     "d/a.jpg".data "d/Images/a.jpg".data (by decide) (by decide)⟩
